import Mathlib

/-!
Verification of the validation core of the vee-validate repository.

The definitions below are a shallow embedding of the TypeScript sources:
* `packages/vee-validate/src/validate.ts` (`validate`, `_validate`, `_test`,
  `_generateFieldError`, `fillTargetValues`, `validateFieldWithYup`,
  `validateYupSchema`, `validateObjectSchema`),
* `src/components/observer.js` (`flagMergingStrategy`, `mergeFlags`, the
  `ctx` aggregate),
* `src/components/provider.js` (`createCommonHandlers.onValidate`,
  `methods.validate`, `applyResult`),
* `packages/core/src/useField.ts` (`useMeta`, `useValidationState`).

JavaScript values are modelled by the inductive `JSValue`; promise-returning
code is modelled synchronously (the sources `await` every rule uniformly, so
only interleaving at whole-run granularity matters, which is modelled
separately as an event system); a thrown `Error` is modelled by
`Except String` and a rejected yup promise by `Except YupError`.
-/

namespace VeeValidate

/-- A JavaScript value as far as the validation pipeline inspects it. -/
inductive JSValue where
  | vStr : String → JSValue
  | vNum : Int → JSValue
  | vBool : Bool → JSValue
  | vNull : JSValue
  | vUndefined : JSValue
  | vArr : List JSValue → JSValue

/-- The cross-field value table (`formData` / `values`), keyed by field name. -/
abbrev FormData := List (String × JSValue)

/-- Looks a field up in the cross-field table; missing fields read as
`undefined` (the locator closure in `utils` resolves via `getFromPath`,
which yields `undefined` for absent paths). -/
def lookupField (form : FormData) (name : String) : JSValue :=
  match form.find? (fun kv => kv.1 = name) with
  | some kv => kv.2
  | none => JSValue.vUndefined

/-- A rule parameter before locator resolution: either a plain value or a
locator marked with a target field name (`isLocator` recognises the
structural marker `__locatorRef`). -/
inductive Param where
  | lit : JSValue → Param
  | locator : String → Param

/-- The params of a normalized rule entry: an array or a keyed map,
exactly the two shapes `fillTargetValues` distinguishes. -/
inductive Params where
  | arr : List Param → Params
  | map : List (String × Param) → Params

/-- Params after locator resolution (same two shapes, values only). -/
inductive ResolvedParams where
  | arr : List JSValue → ResolvedParams
  | map : List (String × JSValue) → ResolvedParams

/-- Source `validate.ts` (`fillTargetValues`): the inner `normalize`
closure — a locator is applied to the cross table, anything else passes
through. -/
def normalizeParam (crossTable : FormData) : Param → JSValue
  | Param.lit v => v
  | Param.locator name => lookupField crossTable name

/-- Source `validate.ts` (`fillTargetValues`): arrays are mapped
positionally, keyed maps are rebuilt key by key over `Object.keys`. -/
def fillTargetValues (params : Params) (crossTable : FormData) : ResolvedParams :=
  match params with
  | Params.arr l => ResolvedParams.arr (l.map (normalizeParam crossTable))
  | Params.map l => ResolvedParams.map (l.map (fun kv => (kv.1, normalizeParam crossTable kv.2)))

/-- What a rule's `validate` capability may return (after awaiting):
`true`/`false`, or a string used verbatim as the error message. -/
inductive RuleReturn where
  | rBool : Bool → RuleReturn
  | rStr : String → RuleReturn

/-- The field context handed to a rule and to the message generator
(the `FieldContext` shape of `shared`). -/
structure FieldCtx where
  field : String
  value : JSValue
  form : FormData
  ruleName : String
  ruleParams : ResolvedParams

/-- A registered rule's validate capability. -/
abbrev RuleValidator := JSValue → ResolvedParams → FieldCtx → RuleReturn

/-- Models `resolveRule`: the process-wide registry, as a lookup function. -/
abbrev Registry := String → Option RuleValidator

/-- The global configuration as far as `_generateFieldError` reads it:
an optional `generateMessage` source. -/
structure Config where
  generateMessage : Option (FieldCtx → String)

/-- Source `validate.ts` (`_generateFieldError`): use the configured
message source when present, else the generic fallback. -/
def _generateFieldError (cfg : Config) (fieldCtx : FieldCtx) : String :=
  match cfg.generateMessage with
  | none => "Field is invalid"
  | some message => message fieldCtx

/-- The per-run field context (`FieldValidationContext` minus the rules,
which are passed separately in normalized form). -/
structure FieldValidationContext where
  name : String
  bails : Bool
  formData : FormData

/-- A normalized rule entry: name and params (`{name, params}`). -/
abbrev NormalizedRule := String × Params

/-- Builds the `FieldContext` that `_test` passes to the validator. -/
def testCtx (field : FieldValidationContext) (value : JSValue) (rule : NormalizedRule) : FieldCtx :=
  { field := field.name
    value := value
    form := field.formData
    ruleName := rule.1
    ruleParams := fillTargetValues rule.2 field.formData }

/-- Source `validate.ts` (`_test`): resolve the rule (throwing when
unknown), fill target params, run the validator and interpret its
return — a string is the literal error, `true` is a pass, `false`
triggers message generation. Returns `some message` for a failure,
`none` for a pass. -/
def _test (resolve : Registry) (cfg : Config) (field : FieldValidationContext)
    (value : JSValue) (rule : NormalizedRule) : Except String (Option String) :=
  match resolve rule.1 with
  | none => Except.error ("No such validator '" ++ rule.1 ++ "' exists.")
  | some validator =>
    match validator value (testCtx field value rule).ruleParams (testCtx field value rule) with
    | RuleReturn.rStr s => Except.ok (some s)
    | RuleReturn.rBool true => Except.ok none
    | RuleReturn.rBool false => Except.ok (some (_generateFieldError cfg (testCtx field value rule)))

/-- The outcome `_test` produces once the rule is known to resolve
(`none` = pass, `some msg` = failure with that message). -/
def testOutcome (resolve : Registry) (cfg : Config) (field : FieldValidationContext)
    (value : JSValue) (rule : NormalizedRule) : Option String :=
  match resolve rule.1 with
  | none => none
  | some validator =>
    match validator value (testCtx field value rule).ruleParams (testCtx field value rule) with
    | RuleReturn.rStr s => some s
    | RuleReturn.rBool true => none
    | RuleReturn.rBool false => some (_generateFieldError cfg (testCtx field value rule))

/-- Source `validate.ts` (`_validate`, rules branch): iterate the
normalized rule entries in declaration order; the guard is the JS
truthiness test `if (result.error)`, so a failure whose message is the
empty string (falsy) is neither pushed nor stops the run. A truthy
message is pushed, and the loop returns early when `bails` is set. The
accumulator mirrors the `errors` array. -/
def _validateLoop (resolve : Registry) (cfg : Config) (field : FieldValidationContext)
    (value : JSValue) : List NormalizedRule → List String → Except String (List String)
  | [], errors => Except.ok errors
  | rule :: rest, errors =>
    match _test resolve cfg field value rule with
    | Except.error e => Except.error e
    | Except.ok none => _validateLoop resolve cfg field value rest errors
    | Except.ok (some msg) =>
      if msg.isEmpty then _validateLoop resolve cfg field value rest errors
      else if field.bails then Except.ok (errors ++ [msg])
      else _validateLoop resolve cfg field value rest (errors ++ [msg])

def _validate (resolve : Registry) (cfg : Config) (field : FieldValidationContext)
    (value : JSValue) (rules : List NormalizedRule) : Except String (List String) :=
  _validateLoop resolve cfg field value rules []

/-- Shape `{errors, valid}` as returned by the `validate` entry point. -/
structure ValidationResult where
  errors : List String
  valid : Bool
deriving DecidableEq, Repr

/-- The options of the `validate` entry point. -/
structure ValidationOptions where
  name : Option String := none
  values : FormData := []
  bails : Option Bool := none

/-- The field context `validate` builds from its options: `bails`
defaults to `true` via `?? true`, the name falls back to the placeholder. -/
def fieldOfOptions (options : ValidationOptions) : FieldValidationContext :=
  { name := options.name.getD "{field}"
    bails := options.bails.getD true
    formData := options.values }

/-- Source `validate.ts` (`validate`): build the field context and wrap
the errors of `_validate` into a result with `valid = !errors.length`. -/
def validate (resolve : Registry) (cfg : Config) (value : JSValue)
    (rules : List NormalizedRule) (options : ValidationOptions) :
    Except String ValidationResult :=
  match _validate resolve cfg (fieldOfOptions options) value rules with
  | Except.error e => Except.error e
  | Except.ok errors => Except.ok { errors := errors, valid := errors.isEmpty }

/-- The ordered list of failing-rule messages that pass the source's
`if (result.error)` truthiness check (empty messages are falsy and are
dropped by the loop), assuming every rule resolves. -/
def failingMessages (resolve : Registry) (cfg : Config) (field : FieldValidationContext)
    (value : JSValue) (rules : List NormalizedRule) : List String :=
  ((rules.map (testOutcome resolve cfg field value)).filterMap id).filter
    (fun m => !m.isEmpty)

/-- One aggregated error of a yup `ValidationError` rejection
(an entry of `err.inner`). -/
structure YupInnerError where
  path : String
  errors : List String

/-- The rejection shape the core recognises: duck-typed by
`err.name === 'ValidationError'`, carrying `errors` and `inner`. -/
structure YupError where
  name : String
  errors : List String
  inner : List YupInnerError

/-- The options object passed to a yup validator's `validate`. -/
structure YupOpts where
  abortEarly : Bool

/-- An external schema capability validating one field value: resolves on
success, rejects with a `YupError` on failure. -/
abbrev YupFieldValidator := JSValue → YupOpts → Except YupError Unit

/-- An external schema capability validating a whole values object. -/
abbrev YupSchemaValidator := FormData → YupOpts → Except YupError Unit

/-- Source `validate.ts` (`validateFieldWithYup`): call the capability
with `abortEarly: opts.bails ?? true`; a rejection named
`ValidationError` becomes the errors list verbatim, anything else is
re-thrown. -/
def validateFieldWithYup (validator : YupFieldValidator) (value : JSValue)
    (bails : Option Bool) : Except YupError (List String) :=
  match validator value { abortEarly := bails.getD true } with
  | Except.ok _ => Except.ok []
  | Except.error err =>
    if err.name = "ValidationError" then Except.ok err.errors else Except.error err

/-- Form-level result `{valid, results}` keyed by field path. -/
structure FormValidationResult where
  valid : Bool
  results : List (String × ValidationResult)
deriving DecidableEq, Repr

/-- Source `validate.ts` (`validateYupSchema`): always calls the schema
with `abortEarly: false`; a `ValidationError` rejection is converted into
per-path results from `err.inner || []`, any other rejection is
re-thrown. -/
def validateYupSchema (schema : YupSchemaValidator) (values : FormData) :
    Except YupError FormValidationResult :=
  match schema values { abortEarly := false } with
  | Except.ok _ => Except.ok { valid := true, results := [] }
  | Except.error err =>
    if err.name ≠ "ValidationError" then Except.error err
    else
      Except.ok
        { valid := err.inner.isEmpty
          results := err.inner.map
            (fun e => (e.path, { errors := e.errors, valid := e.errors.isEmpty })) }

/-- Options of `validateObjectSchema`: optional display names per path
and the bail mode. -/
structure ObjectSchemaOpts where
  names : List (String × String) := []
  bails : Option Bool := none

def lookupName (names : List (String × String)) (path : String) : Option String :=
  match names.find? (fun kv => kv.1 = path) with
  | some kv => some kv.2
  | none => none

/-- Source `validate.ts` (`validateObjectSchema`): one field-level
`validate` call per schema path, with `bails: opts?.bails ?? true` and
the display name falling back to the path. -/
def validateObjectSchemaLoop (resolve : Registry) (cfg : Config) (values : FormData)
    (opts : ObjectSchemaOpts) :
    List (String × List NormalizedRule) → Except String (List (String × ValidationResult))
  | [] => Except.ok []
  | (path, rules) :: rest =>
    match validate resolve cfg (lookupField values path) rules
        { name := some ((lookupName opts.names path).getD path)
          values := values
          bails := some (opts.bails.getD true) } with
    | Except.error e => Except.error e
    | Except.ok r =>
      match validateObjectSchemaLoop resolve cfg values opts rest with
      | Except.error e => Except.error e
      | Except.ok rs => Except.ok ((path, r) :: rs)

/-- Source `validate.ts` (`validateObjectSchema`): aggregate the per-path
results; `valid` iff every field result is valid. -/
def validateObjectSchema (resolve : Registry) (cfg : Config)
    (schema : List (String × List NormalizedRule)) (values : FormData)
    (opts : ObjectSchemaOpts) : Except String FormValidationResult :=
  match validateObjectSchemaLoop resolve cfg values opts schema with
  | Except.error e => Except.error e
  | Except.ok rs => Except.ok { valid := rs.all (fun pr => pr.2.valid), results := rs }

/-- Modelled from the spec: the v3 validation pipeline (the `validate` of
`src/validate.ts` that `src/components/Provider.ts` calls with
`skipIfEmpty` and that `src/components/provider.js` reaches through
`$validator.verify`) is not present under the sources; only its callers,
docs and tests are. Per the spec, a value is "empty" when it is the empty
string, `null`, `undefined`, or an empty array; `false` boolean values
are explicitly NOT empty. -/
def isEmptyValue : JSValue → Bool
  | JSValue.vStr s => s == ""
  | JSValue.vNull => true
  | JSValue.vUndefined => true
  | JSValue.vArr l => l.isEmpty
  | _ => false

/-- Modelled from the spec: a rule of the v3 pipeline, with the
registry's "is required rule" introspection flag and its observable
outcome on a value (`none` = pass, `some msg` = fail with message). -/
structure V3Rule where
  name : String
  isRequireRule : Bool
  run : JSValue → Option String

/-- Modelled from the spec: the v3 executor runs the rules in order,
collecting failing messages, stopping at the first failure when `bails`. -/
def v3_runRules (bails : Bool) (value : JSValue) : List V3Rule → List String
  | [] => []
  | r :: rest =>
    match r.run value with
    | none => v3_runRules bails value rest
    | some msg => if bails then [msg] else msg :: v3_runRules bails value rest

/-- Modelled from the spec: the v3 `validate` special-case — if the value
is empty and the field is not required (per the required computation
across all its rules), skip all rules and report valid; otherwise run the
rules. -/
def v3_validate (bails : Bool) (rules : List V3Rule) (value : JSValue) : ValidationResult :=
  if isEmptyValue value && !(rules.any (fun r => r.isRequireRule)) then
    { errors := [], valid := true }
  else
    { errors := v3_runRules bails value rules
      valid := (v3_runRules bails value rules).isEmpty }

/-- A flag name of the observer's merge table. -/
inductive FlagName where
  | pristine | dirty | touched | untouched | valid | invalid | pending | validated
deriving DecidableEq, Repr

/-- A merge strategy entry: `'every'` or `'some'` in the source. -/
inductive MergeStrategy where
  | everyField | someField
deriving DecidableEq, Repr

/-- Source `observer.js` (`flagMergingStrategy`). -/
def flagMergingStrategy : FlagName → MergeStrategy
  | FlagName.pristine => MergeStrategy.everyField
  | FlagName.dirty => MergeStrategy.someField
  | FlagName.touched => MergeStrategy.someField
  | FlagName.untouched => MergeStrategy.everyField
  | FlagName.valid => MergeStrategy.everyField
  | FlagName.invalid => MergeStrategy.someField
  | FlagName.pending => MergeStrategy.someField
  | FlagName.validated => MergeStrategy.everyField

/-- The per-provider flags the observer merges. -/
structure ObserverFlags where
  pristine : Bool
  dirty : Bool
  touched : Bool
  untouched : Bool
  valid : Bool
  invalid : Bool
  pending : Bool
  validated : Bool
deriving DecidableEq, Repr

def getFlag (f : ObserverFlags) : FlagName → Bool
  | FlagName.pristine => f.pristine
  | FlagName.dirty => f.dirty
  | FlagName.touched => f.touched
  | FlagName.untouched => f.untouched
  | FlagName.valid => f.valid
  | FlagName.invalid => f.invalid
  | FlagName.pending => f.pending
  | FlagName.validated => f.validated

/-- Source `observer.js` (`mergeFlags`): `[lhs, rhs].every(f => f)` is
`lhs && rhs` and `[lhs, rhs].some(f => f)` is `lhs || rhs`. -/
def mergeFlags (lhs rhs : Bool) (flag : FlagName) : Bool :=
  match flagMergingStrategy flag with
  | MergeStrategy.everyField => lhs && rhs
  | MergeStrategy.someField => lhs || rhs

/-- Source `observer.js` (`computed.ctx`): one step of the reduce — when
the accumulator has no entry for the flag yet, the provider's flag seeds
it, otherwise the two are merged. -/
def aggregateStep (flag : FlagName) (acc : Option Bool) (p : ObserverFlags) : Option Bool :=
  match acc with
  | none => some (getFlag p flag)
  | some b => some (mergeFlags b (getFlag p flag) flag)

/-- Source `observer.js` (`computed.ctx`): the reduce over the registered
providers. `none` when no fields are registered (the aggregate object
then carries no entry for the flag). -/
def aggregateFlag (flag : FlagName) (fields : List ObserverFlags) : Option Bool :=
  fields.foldl (aggregateStep flag) none

/-- The slice of a `ValidationProvider`'s state touched by overlapping
validation runs: the messages, the result flags, and the `_waiting`
reference used by the race guard in `createCommonHandlers.onValidate`. -/
structure ProviderState where
  messages : List String
  valid : Bool
  invalid : Bool
  validated : Bool
  waiting : Option Nat
deriving DecidableEq, Repr

def initialProviderState : ProviderState :=
  { messages := [], valid := false, invalid := false, validated := false, waiting := none }

/-- Source `provider.js` (`applyResult`): store the messages and derive
the result flags, marking the field validated. -/
def providerApplyResult (s : ProviderState) (errors : List String) : ProviderState :=
  { s with
    messages := errors
    valid := errors.isEmpty
    invalid := !errors.isEmpty
    validated := true }

/-- An event of the single-threaded run scheduler: a validation run is
initiated by the `onValidate` handler (which stores its promise in
`_waiting`), and later its promise resolves with an error list. -/
inductive ProviderEvent where
  | initiate : Nat → ProviderEvent
  | resolve : Nat → List String → ProviderEvent

/-- Source `provider.js` (`createCommonHandlers.onValidate` and
`methods.validate`): initiating run `n` calls `ctx.validate()` and stores
the pending promise in `ctx._waiting`. When run `n`'s promise resolves,
`methods.validate`'s own `.then` applies the result unconditionally, and
only afterwards the `onValidate` `.then` re-applies it — guarded by
`pendingPromise === ctx._waiting` — and clears `_waiting`. -/
def providerStep (s : ProviderState) : ProviderEvent → ProviderState
  | ProviderEvent.initiate n => { s with waiting := some n }
  | ProviderEvent.resolve n errors =>
    match providerApplyResult s errors with
    | s1 => if s1.waiting = some n then { providerApplyResult s1 errors with waiting := none } else s1

def providerRun (events : List ProviderEvent) : ProviderState :=
  events.foldl providerStep initialProviderState

/-- Field meta flags of `useField.ts`. -/
structure FieldMeta where
  untouched : Bool
  touched : Bool
  dirty : Bool
  pristine : Bool
  valid : Bool
  invalid : Bool
  validated : Bool
  pending : Bool
  changed : Bool
  passed : Bool
  failed : Bool
deriving DecidableEq, Repr

/-- Source `useField.ts` (`useMeta.initialMeta`): all-false except
`untouched` and `pristine`. -/
def initialFieldMeta : FieldMeta :=
  { untouched := true, touched := false, dirty := false, pristine := true, valid := false
    invalid := false, validated := false, pending := false, changed := false
    passed := false, failed := false }

/-- Source `useField.ts` (`useMeta`): the `watchEffect` keeping `passed`
and `failed` derived from the other flags. -/
def metaRecompute (m : FieldMeta) : FieldMeta :=
  { m with passed := m.valid && m.validated, failed := m.invalid && m.validated }

/-- The flag-updating events of `useField.ts`: `handleInput` (value
change), `handleBlur`, the pending toggle and direct valid/invalid update
inside `runValidation`, `patch` (a completed validation applied), and
`reset`. -/
inductive MetaEvent where
  | input : MetaEvent
  | blur : MetaEvent
  | pendingStart : MetaEvent
  | silentResult : Bool → MetaEvent
  | patch : List String → Bool → MetaEvent
  | reset : MetaEvent

/-- Source `useField.ts` (`useValidationState` / `useMeta`): the flag
mutations each event performs. `useMeta.reset` restores every flag except
`passed`/`failed`, which it skips because they are recomputed. -/
def metaApply (m : FieldMeta) : MetaEvent → FieldMeta
  | MetaEvent.input => { m with dirty := true, pristine := false }
  | MetaEvent.blur => { m with touched := true, untouched := false }
  | MetaEvent.pendingStart => { m with pending := true }
  | MetaEvent.silentResult errorsEmpty =>
    { m with valid := errorsEmpty, invalid := !errorsEmpty, pending := false }
  | MetaEvent.patch errors changed =>
    { m with
      changed := changed
      valid := errors.isEmpty
      invalid := !errors.isEmpty
      validated := true }
  | MetaEvent.reset => { initialFieldMeta with passed := m.passed, failed := m.failed }

/-- One observable transition: the mutation followed by the reactive
`watchEffect` recomputation. -/
def metaStep (m : FieldMeta) (e : MetaEvent) : FieldMeta :=
  metaRecompute (metaApply m e)

def metaRun (events : List MetaEvent) : FieldMeta :=
  events.foldl metaStep initialFieldMeta

/-- Witness fixture: a rule that always fails with a literal message. -/
def alphaValidator : RuleValidator := fun _ _ _ => RuleReturn.rStr "alpha failed"

/-- Witness fixture: a second rule failing with a literal message. -/
def betaValidator : RuleValidator := fun _ _ _ => RuleReturn.rStr "beta failed"

/-- Witness fixture: a rule that always passes. -/
def gammaValidator : RuleValidator := fun _ _ _ => RuleReturn.rBool true

/-- Witness fixture: a rule that fails by returning `false`, triggering
message generation. -/
def omegaValidator : RuleValidator := fun _ _ _ => RuleReturn.rBool false

/-- Witness fixture registry. -/
def wRegistry : Registry := fun name =>
  match name with
  | "alpha" => some alphaValidator
  | "beta" => some betaValidator
  | "gamma" => some gammaValidator
  | "omega" => some omegaValidator
  | _ => none

/-- Witness fixture: a configuration with no message source configured. -/
def wConfig : Config := ⟨none⟩

/-- Witness fixture: two failing rules around a passing one, in
declaration order. -/
def wRules : List NormalizedRule :=
  [("alpha", Params.arr []), ("gamma", Params.arr []), ("beta", Params.arr [])]

/-- Fixture for the C3 runs: a failing known rule followed by an
unregistered one. -/
def c3Rules : List NormalizedRule := [("alpha", Params.arr []), ("delta", Params.arr [])]

/-- Fixture for the C1 counterexample: a rule failing via `false` (whose
generated message can be empty) followed by a rule failing with a
literal message. -/
def c1xRules : List NormalizedRule := [("omega", Params.arr []), ("beta", Params.arr [])]

/-- Fixture: an email-like v3 rule, not a required rule, failing on
values without an at-sign (in particular on the empty string). -/
def c2EmailRule : V3Rule :=
  { name := "email"
    isRequireRule := false
    run := fun v =>
      match v with
      | JSValue.vStr s => if s.contains '@' then none else some "must be a valid email"
      | _ => some "must be a valid email" }

/-- Fixture: a required-like v3 rule failing on non-truthy values,
including `false`. -/
def c2RequiredRule : V3Rule :=
  { name := "required"
    isRequireRule := true
    run := fun v =>
      match v with
      | JSValue.vBool b => if b then none else some "is required"
      | JSValue.vStr s => if s == "" then some "is required" else none
      | JSValue.vNull => some "is required"
      | JSValue.vUndefined => some "is required"
      | _ => none }

/-- Fixture field context for the C6 runs. -/
def c6Field : FieldValidationContext := { name := "f", bails := true, formData := [] }

/-- Fixture: a configuration whose message source yields the empty
string. -/
def c6EmptyMessageConfig : Config := ⟨some (fun _ => "")⟩

/-- Probe: a field-level schema capability rejecting with a
`ValidationError` that records the `abortEarly` flag it received. -/
def yupFieldProbe : YupFieldValidator := fun _ opts =>
  Except.error
    { name := "ValidationError"
      errors := [if opts.abortEarly then "abortEarly=true" else "abortEarly=false"]
      inner := [] }

/-- Probe: a form-level schema capability rejecting with a
`ValidationError` whose single inner error records the `abortEarly` flag
it received. -/
def yupSchemaProbe : YupSchemaValidator := fun _ opts =>
  Except.error
    { name := "ValidationError"
      errors := []
      inner := [{ path := "p"
                  errors := [if opts.abortEarly then "abortEarly=true" else "abortEarly=false"] }] }

/-- The rejection `yupFieldProbe` produces under `abortEarly = true`. -/
def probeVE : YupError :=
  { name := "ValidationError", errors := ["abortEarly=true"], inner := [] }

/-- Probe: a capability rejecting with a non-ValidationError shape. -/
def yupThrowProbe : YupFieldValidator := fun _ _ =>
  Except.error { name := "TypeError", errors := [], inner := [] }

/-- The rejection `yupThrowProbe` produces. -/
def typeErr : YupError := { name := "TypeError", errors := [], inner := [] }

/-- Fixture: a valid and validated field's flags. -/
def obsFieldA : ObserverFlags :=
  { pristine := true, dirty := false, touched := false, untouched := true
    valid := true, invalid := false, pending := false, validated := true }

/-- Fixture: an invalid, not yet validated field's flags. -/
def obsFieldB : ObserverFlags :=
  { pristine := false, dirty := true, touched := true, untouched := false
    valid := false, invalid := true, pending := false, validated := false }

/-- Fixture: an array param list mixing a literal and a locator. -/
def c10ParamsArr : List Param := [Param.lit (JSValue.vNum 3), Param.locator "foo"]

/-- Fixture: a keyed param map mixing a literal and a locator. -/
def c10ParamsMap : List (String × Param) :=
  [("max", Param.lit (JSValue.vNum 5)), ("target", Param.locator "foo")]

/-- Fixture: a cross-field table binding `foo`. -/
def c10Cross : FormData := [("foo", JSValue.vNum 10)]

theorem _test_eq_testOutcome (resolve : Registry) (cfg : Config) (field : FieldValidationContext)
    (value : JSValue) (rule : NormalizedRule) (v : RuleValidator)
    (h : resolve rule.1 = some v) :
    _test resolve cfg field value rule = Except.ok (testOutcome resolve cfg field value rule) := by
  unfold _test testOutcome
  rw [h]
  cases hval : v value (testCtx field value rule).ruleParams (testCtx field value rule) with
  | rBool b => cases b <;> simp [hval]
  | rStr s => simp [hval]

theorem failingMessages_cons (resolve : Registry) (cfg : Config) (field : FieldValidationContext)
    (value : JSValue) (r : NormalizedRule) (rest : List NormalizedRule) :
    failingMessages resolve cfg field value (r :: rest) =
      (match testOutcome resolve cfg field value r with
        | none => failingMessages resolve cfg field value rest
        | some m =>
          if m.isEmpty then failingMessages resolve cfg field value rest
          else m :: failingMessages resolve cfg field value rest) := by
  rcases h : testOutcome resolve cfg field value r with _ | m
  · simp [failingMessages, h]
  · rcases hm : m.isEmpty
    · simp [failingMessages, h, hm]
    · simp [failingMessages, h, hm]

/-- With `bails = false` and all rules resolving, the loop collects every
failing rule's message after the accumulator, in rule order. -/
theorem _validateLoop_noBail (resolve : Registry) (cfg : Config)
    (field : FieldValidationContext) (value : JSValue)
    (hb : field.bails = false) :
    ∀ (rules : List NormalizedRule) (acc : List String),
      (∀ r ∈ rules, ∃ v, resolve r.1 = some v) →
      _validateLoop resolve cfg field value rules acc =
        Except.ok (acc ++ failingMessages resolve cfg field value rules) := by
  intro rules
  induction rules with
  | nil => intro acc _; simp [_validateLoop, failingMessages]
  | cons r rest ih =>
    intro acc hres
    obtain ⟨v, hv⟩ := hres r (List.mem_cons_self r rest)
    have htest := _test_eq_testOutcome resolve cfg field value r v hv
    have hrest : ∀ x ∈ rest, ∃ w, resolve x.1 = some w :=
      fun x hx => hres x (List.mem_cons_of_mem r hx)
    rw [failingMessages_cons]
    rcases h : testOutcome resolve cfg field value r with _ | m
    · rw [h] at htest
      simp only [_validateLoop, htest, ih acc hrest]
    · rw [h] at htest
      rcases hm : m.isEmpty
      · simp only [_validateLoop, htest, hm, Bool.false_eq_true, if_false, hb,
          ih (acc ++ [m]) hrest]
        simp
      · simp only [_validateLoop, htest, hm, if_true, ih acc hrest]

/-- With `bails = true` and all rules resolving: if some rule fails with
a truthy message, the loop stops at the first such failure and returns
the accumulator plus that one message. -/
theorem _validateLoop_bail (resolve : Registry) (cfg : Config)
    (field : FieldValidationContext) (value : JSValue)
    (hb : field.bails = true) :
    ∀ (rules : List NormalizedRule) (acc : List String),
      (∀ r ∈ rules, ∃ v, resolve r.1 = some v) →
      (∀ m rest, failingMessages resolve cfg field value rules = m :: rest →
        _validateLoop resolve cfg field value rules acc = Except.ok (acc ++ [m])) ∧
      (failingMessages resolve cfg field value rules = [] →
        _validateLoop resolve cfg field value rules acc = Except.ok acc) := by
  intro rules
  induction rules with
  | nil =>
    intro acc _
    refine ⟨fun m rest h => ?_, fun _ => by simp [_validateLoop]⟩
    simp [failingMessages] at h
  | cons r rest ih =>
    intro acc hres
    obtain ⟨v, hv⟩ := hres r (List.mem_cons_self r rest)
    have htest := _test_eq_testOutcome resolve cfg field value r v hv
    have hrest : ∀ x ∈ rest, ∃ w, resolve x.1 = some w :=
      fun x hx => hres x (List.mem_cons_of_mem r hx)
    have hmsgs := failingMessages_cons resolve cfg field value r rest
    rcases h : testOutcome resolve cfg field value r with _ | m
    · rw [h] at htest hmsgs
      constructor
      · intro m' rest' hfail
        rw [hmsgs] at hfail
        simp only [_validateLoop, htest]
        exact (ih acc hrest).1 m' rest' hfail
      · intro hfail
        rw [hmsgs] at hfail
        simp only [_validateLoop, htest]
        exact (ih acc hrest).2 hfail
    · rw [h] at htest hmsgs
      rcases hm : m.isEmpty
      · simp only [hm, Bool.false_eq_true, if_false] at hmsgs
        constructor
        · intro m' rest' hfail
          rw [hmsgs] at hfail
          obtain ⟨hm', _⟩ := List.cons_eq_cons.mp hfail
          subst hm'
          simp only [_validateLoop, htest, hm, Bool.false_eq_true, if_false, hb, if_true]
        · intro hfail
          rw [hmsgs] at hfail
          exact absurd hfail (List.cons_ne_nil _ _)
      · simp only [hm, if_true] at hmsgs
        constructor
        · intro m' rest' hfail
          rw [hmsgs] at hfail
          simp only [_validateLoop, htest, hm, if_true]
          exact (ih acc hrest).1 m' rest' hfail
        · intro hfail
          rw [hmsgs] at hfail
          simp only [_validateLoop, htest, hm, if_true]
          exact (ih acc hrest).2 hfail

/-- C1 counterexample: with a configured message source yielding the
empty string, both rules of `[omega, beta]` fail — omega returns `false`
(its generated message is the falsy ""), beta returns the literal
"beta failed" — yet under the default `bails = true` the single returned
error is rule B's message, not rule A's, and under `bails = false` the
errors list holds only one message for the two failing rules: the
source's `if (result.error)` truthiness check silently drops omega's
failure, refuting both halves of the claim. -/
theorem c1_bail_policy_counterexample :
    testOutcome wRegistry c6EmptyMessageConfig (fieldOfOptions {}) JSValue.vNull
      ("omega", Params.arr []) = some "" ∧
    testOutcome wRegistry c6EmptyMessageConfig (fieldOfOptions {}) JSValue.vNull
      ("beta", Params.arr []) = some "beta failed" ∧
    validate wRegistry c6EmptyMessageConfig JSValue.vNull c1xRules {} =
      Except.ok ⟨["beta failed"], false⟩ ∧
    validate wRegistry c6EmptyMessageConfig JSValue.vNull c1xRules { bails := some false } =
      Except.ok ⟨["beta failed"], false⟩ :=
  ⟨rfl, rfl, rfl, rfl⟩

/-- C1 (amended): for a run over a normalized rule list in which every
rule resolves, the bail policy applies to the failing rules whose
messages pass the `if (result.error)` truthiness check: with
`bails = true` (the default when the option is omitted) and at least two
truthy failing messages `mA :: mB :: rest` in declaration order, the
result contains exactly the single error `mA` and is invalid; with
`bails = false` the errors are exactly the truthy failing messages, in
declaration order. A failing rule whose message is the empty string is
silently dropped and does not stop the run. -/
theorem c1_bail_policy_amended (resolve : Registry) (cfg : Config) (value : JSValue)
    (rules : List NormalizedRule) (options : ValidationOptions)
    (hres : ∀ r ∈ rules, ∃ v, resolve r.1 = some v) :
    (options.bails.getD true = true →
      ∀ mA mB rest,
        failingMessages resolve cfg (fieldOfOptions options) value rules = mA :: mB :: rest →
        validate resolve cfg value rules options = Except.ok ⟨[mA], false⟩) ∧
    (options.bails = some false →
      validate resolve cfg value rules options =
        Except.ok
          ⟨failingMessages resolve cfg (fieldOfOptions options) value rules,
            (failingMessages resolve cfg (fieldOfOptions options) value rules).isEmpty⟩) := by
  constructor
  · intro hb mA mB rest hfail
    have hbails : (fieldOfOptions options).bails = true := hb
    have hloop :=
      (_validateLoop_bail resolve cfg (fieldOfOptions options) value hbails rules [] hres).1
        mA (mB :: rest) hfail
    unfold validate _validate
    rw [hloop]
    rfl
  · intro hb
    have hbails : (fieldOfOptions options).bails = false := by
      show options.bails.getD true = false
      rw [hb]
      rfl
    have hloop := _validateLoop_noBail resolve cfg (fieldOfOptions options) value hbails rules [] hres
    unfold validate _validate
    rw [hloop]
    rfl

theorem c1_bail_policy_amended_witness :
    (∀ r ∈ wRules, ∃ v, wRegistry r.1 = some v) ∧
    validate wRegistry wConfig JSValue.vNull wRules {} = Except.ok ⟨["alpha failed"], false⟩ ∧
    validate wRegistry wConfig JSValue.vNull wRules { bails := some false } =
      Except.ok ⟨["alpha failed", "beta failed"], false⟩ := by
  have hres : ∀ r ∈ wRules, ∃ v, wRegistry r.1 = some v := by
    intro r hr
    simp only [wRules, List.mem_cons, List.not_mem_nil, or_false] at hr
    rcases hr with rfl | rfl | rfl
    · exact ⟨_, rfl⟩
    · exact ⟨_, rfl⟩
    · exact ⟨_, rfl⟩
  refine ⟨hres, ?_, ?_⟩
  · exact (c1_bail_policy_amended wRegistry wConfig JSValue.vNull wRules {} hres).1 rfl
      "alpha failed" "beta failed" [] rfl
  · exact (c1_bail_policy_amended wRegistry wConfig JSValue.vNull wRules { bails := some false } hres).2 rfl

/-- With `bails = false`, a rule list containing an unresolvable name
makes the whole loop reject (every rule is reached, and `_test` throws on
the unknown one). -/
theorem _validateLoop_unknown_error (resolve : Registry) (cfg : Config)
    (field : FieldValidationContext) (value : JSValue)
    (hb : field.bails = false) :
    ∀ (rules : List NormalizedRule) (acc : List String),
      (∃ r ∈ rules, resolve r.1 = none) →
      ∃ e, _validateLoop resolve cfg field value rules acc = Except.error e := by
  intro rules
  induction rules with
  | nil =>
    intro acc h
    obtain ⟨r, hr, _⟩ := h
    exact absurd hr (List.not_mem_nil r)
  | cons r rest ih =>
    intro acc h
    rcases hres : resolve r.1 with _ | v
    · refine ⟨"No such validator '" ++ r.1 ++ "' exists.", ?_⟩
      simp only [_validateLoop, _test, hres]
    · have htest := _test_eq_testOutcome resolve cfg field value r v hres
      obtain ⟨x, hx, hxres⟩ := h
      have hxrest : x ∈ rest := by
        rcases List.mem_cons.mp hx with rfl | hx'
        · rw [hres] at hxres; exact absurd hxres (by simp)
        · exact hx'
      rcases hout : testOutcome resolve cfg field value r with _ | m
      · rw [hout] at htest
        simp only [_validateLoop, htest]
        exact ih acc ⟨x, hxrest, hxres⟩
      · rw [hout] at htest
        rcases hm : m.isEmpty
        · simp only [_validateLoop, htest, hm, Bool.false_eq_true, if_false, hb]
          exact ih (acc ++ [m]) ⟨x, hxrest, hxres⟩
        · simp only [_validateLoop, htest, hm, if_true]
          exact ih acc ⟨x, hxrest, hxres⟩

/-- Whatever the bail mode, a loop over a rule list containing an
unresolvable name never succeeds with an empty error list: either it
rejects, or an earlier failure bailed out, leaving at least one error. -/
theorem _validateLoop_unknown_ok_ne_nil (resolve : Registry) (cfg : Config)
    (field : FieldValidationContext) (value : JSValue) :
    ∀ (rules : List NormalizedRule) (acc res : List String),
      (∃ r ∈ rules, resolve r.1 = none) →
      _validateLoop resolve cfg field value rules acc = Except.ok res → res ≠ [] := by
  intro rules
  induction rules with
  | nil =>
    intro acc res h _
    obtain ⟨r, hr, _⟩ := h
    exact absurd hr (List.not_mem_nil r)
  | cons r rest ih =>
    intro acc res h hok
    rcases hres : resolve r.1 with _ | v
    · rw [_validateLoop] at hok
      rw [show _test resolve cfg field value r =
          Except.error ("No such validator '" ++ r.1 ++ "' exists.") by
        simp only [_test, hres]] at hok
      exact absurd hok (by simp)
    · have htest := _test_eq_testOutcome resolve cfg field value r v hres
      obtain ⟨x, hx, hxres⟩ := h
      have hxrest : x ∈ rest := by
        rcases List.mem_cons.mp hx with rfl | hx'
        · rw [hres] at hxres; exact absurd hxres (by simp)
        · exact hx'
      rcases hout : testOutcome resolve cfg field value r with _ | m
      · rw [hout] at htest
        rw [_validateLoop, htest] at hok
        exact ih acc res ⟨x, hxrest, hxres⟩ hok
      · rw [hout] at htest
        have hstep : _validateLoop resolve cfg field value (r :: rest) acc =
            (if m.isEmpty then _validateLoop resolve cfg field value rest acc
              else if field.bails then Except.ok (acc ++ [m])
              else _validateLoop resolve cfg field value rest (acc ++ [m])) := by
          rw [_validateLoop, htest]
        rw [hstep] at hok
        rcases hm : m.isEmpty
        · rw [hm] at hok
          simp only [Bool.false_eq_true, if_false] at hok
          by_cases hb : field.bails = true
          · rw [hb] at hok
            simp only [if_true] at hok
            obtain rfl := (Except.ok.injEq _ _).mp hok
            simp
          · rw [Bool.not_eq_true] at hb
            rw [hb] at hok
            simp only [Bool.false_eq_true, if_false] at hok
            exact ih (acc ++ [m]) res ⟨x, hxrest, hxres⟩ hok
        · rw [hm] at hok
          simp only [if_true] at hok
          exact ih acc res ⟨x, hxrest, hxres⟩ hok

/-- When no rule in the list fails, the loop always reaches an
unresolvable name and rejects, whatever the bail mode. -/
theorem _validateLoop_allPass_unknown_error (resolve : Registry) (cfg : Config)
    (field : FieldValidationContext) (value : JSValue) :
    ∀ (rules : List NormalizedRule) (acc : List String),
      (∀ r ∈ rules, testOutcome resolve cfg field value r = none) →
      (∃ r ∈ rules, resolve r.1 = none) →
      ∃ e, _validateLoop resolve cfg field value rules acc = Except.error e := by
  intro rules
  induction rules with
  | nil =>
    intro acc _ h
    obtain ⟨r, hr, _⟩ := h
    exact absurd hr (List.not_mem_nil r)
  | cons r rest ih =>
    intro acc hpass h
    rcases hres : resolve r.1 with _ | v
    · refine ⟨"No such validator '" ++ r.1 ++ "' exists.", ?_⟩
      simp only [_validateLoop, _test, hres]
    · have htest := _test_eq_testOutcome resolve cfg field value r v hres
      obtain ⟨x, hx, hxres⟩ := h
      have hxrest : x ∈ rest := by
        rcases List.mem_cons.mp hx with rfl | hx'
        · rw [hres] at hxres; exact absurd hxres (by simp)
        · exact hx'
      rw [hpass r (List.mem_cons_self r rest)] at htest
      simp only [_validateLoop, htest]
      exact ih acc (fun y hy => hpass y (List.mem_cons_of_mem r hy)) ⟨x, hxrest, hxres⟩

/-- C3 counterexample: `delta` is not registered, yet the run over
`[alpha (failing), delta (unknown)]` with the default `bails = true`
resolves (with alpha's error) instead of throwing — the bail
short-circuit returns before the unknown rule is ever resolved, refuting
"the run throws/rejects rather than resolving" as universally stated. -/
theorem c3_unknown_rule_counterexample :
    wRegistry "delta" = none ∧
    validate wRegistry wConfig JSValue.vNull c3Rules {} =
      Except.ok ⟨["alpha failed"], false⟩ :=
  ⟨rfl, rfl⟩

/-- C3 (amended): an unresolvable rule name rejects the run whenever it
is reached — always when `bails = false`, and under any bail mode when no
rule of the list fails; when `bails = true` and an earlier rule fails
first, the run instead resolves with that earlier error. In every case a
run whose rule list contains an unresolvable name never resolves with
`valid = true`. -/
theorem c3_unknown_rule_amended (resolve : Registry) (cfg : Config) (value : JSValue)
    (rules : List NormalizedRule) (options : ValidationOptions)
    (hunknown : ∃ r ∈ rules, resolve r.1 = none) :
    (options.bails = some false →
      ∃ e, validate resolve cfg value rules options = Except.error e) ∧
    ((∀ r ∈ rules, testOutcome resolve cfg (fieldOfOptions options) value r = none) →
      ∃ e, validate resolve cfg value rules options = Except.error e) ∧
    (∀ res, validate resolve cfg value rules options = Except.ok res → res.valid = false) := by
  refine ⟨?_, ?_, ?_⟩
  · intro hb
    have hbails : (fieldOfOptions options).bails = false := by
      show options.bails.getD true = false
      rw [hb]
      rfl
    obtain ⟨e, he⟩ :=
      _validateLoop_unknown_error resolve cfg (fieldOfOptions options) value hbails rules [] hunknown
    refine ⟨e, ?_⟩
    unfold validate _validate
    rw [he]
  · intro hpass
    obtain ⟨e, he⟩ :=
      _validateLoop_allPass_unknown_error resolve cfg (fieldOfOptions options) value rules []
        hpass hunknown
    refine ⟨e, ?_⟩
    unfold validate _validate
    rw [he]
  · intro res hok
    unfold validate _validate at hok
    rcases hloop : _validateLoop resolve cfg (fieldOfOptions options) value rules [] with e | errors
    · rw [hloop] at hok
      exact absurd hok (by simp)
    · rw [hloop] at hok
      obtain rfl := (Except.ok.injEq _ _).mp hok
      have hne :=
        _validateLoop_unknown_ok_ne_nil resolve cfg (fieldOfOptions options) value rules [] errors
          hunknown hloop
      simp [hne]

theorem c3_unknown_rule_amended_witness :
    (∃ r ∈ c3Rules, wRegistry r.1 = none) ∧
    (∀ res, validate wRegistry wConfig JSValue.vNull c3Rules {} = Except.ok res →
      res.valid = false) ∧
    validate wRegistry wConfig JSValue.vNull c3Rules { bails := some false } =
      Except.error "No such validator 'delta' exists." := by
  have hunknown : ∃ r ∈ c3Rules, wRegistry r.1 = none :=
    ⟨("delta", Params.arr []), by simp [c3Rules], rfl⟩
  exact ⟨hunknown,
    (c3_unknown_rule_amended wRegistry wConfig JSValue.vNull c3Rules {} hunknown).2.2, rfl⟩

/-- C2 (spec-modelled): an empty value (empty string, null, undefined,
or empty array) on a field whose rule set contains no required rule
short-circuits to a valid result with zero errors; a boolean `false` is
not empty, so on it the rules run unchanged. -/
theorem c2_empty_optional_skip (bails : Bool) (rules : List V3Rule) (value : JSValue)
    (hnr : ∀ r ∈ rules, r.isRequireRule = false) (hempty : isEmptyValue value = true) :
    v3_validate bails rules value = { errors := [], valid := true } ∧
    isEmptyValue (JSValue.vBool false) = false ∧
    (∀ (bails2 : Bool) (rules2 : List V3Rule),
      v3_validate bails2 rules2 (JSValue.vBool false) =
        { errors := v3_runRules bails2 (JSValue.vBool false) rules2
          valid := (v3_runRules bails2 (JSValue.vBool false) rules2).isEmpty }) := by
  refine ⟨?_, rfl, fun bails2 rules2 => rfl⟩
  have hany : rules.any (fun r => r.isRequireRule) = false := by
    rw [List.any_eq_false]
    intro r hr
    simp [hnr r hr]
  simp [v3_validate, hempty, hany]

theorem c2_empty_optional_skip_witness :
    (∀ r ∈ [c2EmailRule], r.isRequireRule = false) ∧
    isEmptyValue (JSValue.vStr "") = true ∧
    v3_validate true [c2EmailRule] (JSValue.vStr "") = { errors := [], valid := true } ∧
    v3_validate true [c2RequiredRule] (JSValue.vBool false) =
      { errors := ["is required"], valid := false } := by
  have hnr : ∀ r ∈ [c2EmailRule], r.isRequireRule = false := by
    intro r hr
    rw [List.mem_singleton] at hr
    subst hr
    rfl
  refine ⟨hnr, rfl, ?_, ?_⟩
  · exact (c2_empty_optional_skip true [c2EmailRule] (JSValue.vStr "") hnr rfl).1
  · have h := (c2_empty_optional_skip true [c2EmailRule] (JSValue.vStr "") hnr rfl).2.2
      true [c2RequiredRule]
    rw [h]
    rfl

/-- C5: a schema-capability rejection named `ValidationError` is
converted into validation-failure data — for the field-level path its
`errors` list verbatim, for the form-level path its `inner` entries as
per-path results — and a rejection of any other name is re-thrown
unchanged by both paths. -/
theorem c5_validation_error_shape (validator : YupFieldValidator) (value : JSValue)
    (bails : Option Bool) (schema : YupSchemaValidator) (values : FormData)
    (err err2 : YupError) :
    (validator value { abortEarly := bails.getD true } = Except.error err →
      (err.name = "ValidationError" →
        validateFieldWithYup validator value bails = Except.ok err.errors) ∧
      (err.name ≠ "ValidationError" →
        validateFieldWithYup validator value bails = Except.error err)) ∧
    (schema values { abortEarly := false } = Except.error err2 →
      (err2.name = "ValidationError" →
        validateYupSchema schema values =
          Except.ok
            { valid := err2.inner.isEmpty
              results := err2.inner.map
                (fun e => (e.path, { errors := e.errors, valid := e.errors.isEmpty })) }) ∧
      (err2.name ≠ "ValidationError" →
        validateYupSchema schema values = Except.error err2)) := by
  constructor
  · intro h
    constructor
    · intro hname
      simp only [validateFieldWithYup, h]
      rw [if_pos hname]
    · intro hname
      simp only [validateFieldWithYup, h]
      rw [if_neg hname]
  · intro h
    constructor
    · intro hname
      simp only [validateYupSchema, h]
      rw [if_neg (by simp [hname])]
    · intro hname
      simp only [validateYupSchema, h]
      rw [if_pos hname]

theorem c5_validation_error_shape_witness :
    yupFieldProbe JSValue.vNull { abortEarly := true } = Except.error probeVE ∧
    validateFieldWithYup yupFieldProbe JSValue.vNull (some true) =
      Except.ok ["abortEarly=true"] ∧
    validateFieldWithYup yupThrowProbe JSValue.vNull none = Except.error typeErr := by
  refine ⟨rfl, ?_, ?_⟩
  · exact ((c5_validation_error_shape yupFieldProbe JSValue.vNull (some true)
      yupSchemaProbe [] probeVE probeVE).1 rfl).1 rfl
  · exact ((c5_validation_error_shape yupThrowProbe JSValue.vNull none
      yupSchemaProbe [] typeErr typeErr).1 rfl).2 (by decide)

/-- C6 counterexample: with a configured message source that yields the
empty string, a rule failing via `false` produces the empty string as
its one message — refuting the unconditional "the message is non-empty". -/
theorem c6_message_counterexample :
    _test wRegistry c6EmptyMessageConfig c6Field JSValue.vNull ("omega", Params.arr []) =
      Except.ok (some "") ∧
    ("" : String).isEmpty = true :=
  ⟨rfl, rfl⟩

/-- C6 (amended): a failing rule returning a string yields exactly that
string as the error; a rule returning `false` yields exactly one
generated message, namely the configured message source's output, which
when no message source is configured is the non-empty generic fallback
string "Field is invalid". -/
theorem c6_failure_message_amended (resolve : Registry) (cfg : Config)
    (field : FieldValidationContext) (value : JSValue) (rule : NormalizedRule)
    (v : RuleValidator) (h : resolve rule.1 = some v) :
    (∀ s, v value (testCtx field value rule).ruleParams (testCtx field value rule) =
        RuleReturn.rStr s →
      _test resolve cfg field value rule = Except.ok (some s)) ∧
    (v value (testCtx field value rule).ruleParams (testCtx field value rule) =
        RuleReturn.rBool false →
      _test resolve cfg field value rule =
        Except.ok (some (_generateFieldError cfg (testCtx field value rule)))) ∧
    (cfg.generateMessage = none →
      _generateFieldError cfg (testCtx field value rule) = "Field is invalid" ∧
      ("Field is invalid" : String) ≠ "") := by
  refine ⟨?_, ?_, ?_⟩
  · intro s hs
    simp only [_test, h, hs]
  · intro hf
    simp only [_test, h, hf]
  · intro hcfg
    refine ⟨?_, by decide⟩
    simp only [_generateFieldError, hcfg]

theorem c6_failure_message_amended_witness :
    wRegistry "omega" = some omegaValidator ∧
    _test wRegistry wConfig c6Field JSValue.vNull ("omega", Params.arr []) =
      Except.ok (some "Field is invalid") ∧
    _test wRegistry wConfig c6Field JSValue.vNull ("alpha", Params.arr []) =
      Except.ok (some "alpha failed") := by
  refine ⟨rfl, ?_, ?_⟩
  · exact (c6_failure_message_amended wRegistry wConfig c6Field JSValue.vNull
      ("omega", Params.arr []) omegaValidator rfl).2.1 rfl
  · exact (c6_failure_message_amended wRegistry wConfig c6Field JSValue.vNull
      ("alpha", Params.arr []) alphaValidator rfl).1 "alpha failed" rfl

/-- C4 code-bug evaluation: run 1 is initiated, then run 2; run 2 (the
most recently initiated) resolves first with no errors, and only
afterwards does the stale run 1 resolve with an error. Because
`methods.validate` applies every result unconditionally when its own
promise resolves — before the `onValidate` guard (`pendingPromise ===
ctx._waiting`, commented "avoids race conditions between successive
validations") can discard it — the final state carries run 1's stale
error and `invalid = true` instead of run 2's clean result. -/
theorem c4_stale_result_applied :
    providerRun
      [ProviderEvent.initiate 1, ProviderEvent.initiate 2,
        ProviderEvent.resolve 2 [], ProviderEvent.resolve 1 ["msg1"]] =
      { messages := ["msg1"], valid := false, invalid := true, validated := true
        waiting := none } :=
  rfl

/-- Folding the observer merge step from an existing entry multiplies an
all-fields-must-hold flag through with conjunction. -/
theorem aggregateStep_foldl_every (flag : FlagName)
    (hstrat : flagMergingStrategy flag = MergeStrategy.everyField) :
    ∀ (l : List ObserverFlags) (b : Bool),
      l.foldl (aggregateStep flag) (some b) = some (b && l.all (fun f => getFlag f flag)) := by
  intro l
  induction l with
  | nil => intro b; simp
  | cons p rest ih =>
    intro b
    rw [List.foldl_cons, List.all_cons]
    rw [show aggregateStep flag (some b) p = some (b && getFlag p flag) by
      simp [aggregateStep, mergeFlags, hstrat]]
    rw [ih (b && getFlag p flag), Bool.and_assoc]

/-- Folding the observer merge step from an existing entry multiplies an
any-field-suffices flag through with disjunction. -/
theorem aggregateStep_foldl_some (flag : FlagName)
    (hstrat : flagMergingStrategy flag = MergeStrategy.someField) :
    ∀ (l : List ObserverFlags) (b : Bool),
      l.foldl (aggregateStep flag) (some b) = some (b || l.any (fun f => getFlag f flag)) := by
  intro l
  induction l with
  | nil => intro b; simp
  | cons p rest ih =>
    intro b
    rw [List.foldl_cons, List.any_cons]
    rw [show aggregateStep flag (some b) p = some (b || getFlag p flag) by
      simp [aggregateStep, mergeFlags, hstrat]]
    rw [ih (b || getFlag p flag), Bool.or_assoc]

theorem aggregateFlag_every (flag : FlagName)
    (hstrat : flagMergingStrategy flag = MergeStrategy.everyField)
    (fields : List ObserverFlags) (h : fields ≠ []) :
    aggregateFlag flag fields = some (fields.all (fun f => getFlag f flag)) := by
  rcases fields with _ | ⟨p, rest⟩
  · exact absurd rfl h
  · unfold aggregateFlag
    rw [List.foldl_cons]
    rw [show aggregateStep flag none p = some (getFlag p flag) from rfl]
    rw [aggregateStep_foldl_every flag hstrat rest (getFlag p flag), List.all_cons]

theorem aggregateFlag_some (flag : FlagName)
    (hstrat : flagMergingStrategy flag = MergeStrategy.someField)
    (fields : List ObserverFlags) (h : fields ≠ []) :
    aggregateFlag flag fields = some (fields.any (fun f => getFlag f flag)) := by
  rcases fields with _ | ⟨p, rest⟩
  · exact absurd rfl h
  · unfold aggregateFlag
    rw [List.foldl_cons]
    rw [show aggregateStep flag none p = some (getFlag p flag) from rfl]
    rw [aggregateStep_foldl_some flag hstrat rest (getFlag p flag), List.any_cons]

/-- C7: over any non-empty set of registered fields, the form aggregate
follows the fixed merge table — `pristine`, `untouched`, `valid` and
`validated` hold iff they hold for all fields; `dirty`, `touched`,
`invalid` and `pending` hold iff they hold for some field. -/
theorem c7_form_meta_merge (fields : List ObserverFlags) (h : fields ≠ []) :
    aggregateFlag FlagName.pristine fields = some (fields.all (fun f => f.pristine)) ∧
    aggregateFlag FlagName.untouched fields = some (fields.all (fun f => f.untouched)) ∧
    aggregateFlag FlagName.valid fields = some (fields.all (fun f => f.valid)) ∧
    aggregateFlag FlagName.validated fields = some (fields.all (fun f => f.validated)) ∧
    aggregateFlag FlagName.dirty fields = some (fields.any (fun f => f.dirty)) ∧
    aggregateFlag FlagName.touched fields = some (fields.any (fun f => f.touched)) ∧
    aggregateFlag FlagName.invalid fields = some (fields.any (fun f => f.invalid)) ∧
    aggregateFlag FlagName.pending fields = some (fields.any (fun f => f.pending)) := by
  refine ⟨?_, ?_, ?_, ?_, ?_, ?_, ?_, ?_⟩
  · simpa [getFlag] using aggregateFlag_every FlagName.pristine rfl fields h
  · simpa [getFlag] using aggregateFlag_every FlagName.untouched rfl fields h
  · simpa [getFlag] using aggregateFlag_every FlagName.valid rfl fields h
  · simpa [getFlag] using aggregateFlag_every FlagName.validated rfl fields h
  · simpa [getFlag] using aggregateFlag_some FlagName.dirty rfl fields h
  · simpa [getFlag] using aggregateFlag_some FlagName.touched rfl fields h
  · simpa [getFlag] using aggregateFlag_some FlagName.invalid rfl fields h
  · simpa [getFlag] using aggregateFlag_some FlagName.pending rfl fields h

theorem c7_form_meta_merge_witness :
    ([obsFieldA, obsFieldB] : List ObserverFlags) ≠ [] ∧
    aggregateFlag FlagName.valid [obsFieldA, obsFieldB] = some false ∧
    aggregateFlag FlagName.validated [obsFieldA, obsFieldB] = some false ∧
    aggregateFlag FlagName.invalid [obsFieldA, obsFieldB] = some true := by
  have h := c7_form_meta_merge [obsFieldA, obsFieldB] (by simp)
  refine ⟨by simp, ?_, ?_, ?_⟩
  · rw [h.2.2.1]; rfl
  · rw [h.2.2.2.1]; rfl
  · rw [h.2.2.2.2.2.2.1]; rfl

/-- C8 counterexample: the form-level external-schema entry point
`validateYupSchema` takes no mode argument and invokes the capability
with `abortEarly: false` unconditionally — the probe records the flag it
received — so an abort-early mode cannot be selected by the caller on
this path, refuting "both schema-level entry points support an abort
early mode and a collect-all mode, selected by the caller". -/
theorem c8_abort_early_counterexample :
    validateYupSchema yupSchemaProbe [] =
      Except.ok
        { valid := false
          results := [("p", { errors := ["abortEarly=false"], valid := false })] } :=
  rfl

/-- C8 (amended): the plain object-schema path supports abort-early vs
collect-all selected by the caller via `opts.bails` (abort-early being
the default), and the field-level external-schema path selects
`abortEarly` via its `bails` option; the form-level external-schema path
`validateYupSchema` offers no such mode and always validates with
`abortEarly = false` (collect-all). -/
theorem c8_abort_early_amended :
    (∀ b : Bool,
      validateFieldWithYup yupFieldProbe JSValue.vNull (some b) =
        Except.ok [if b then "abortEarly=true" else "abortEarly=false"]) ∧
    (∀ values : FormData,
      validateYupSchema yupSchemaProbe values =
        Except.ok
          { valid := false
            results := [("p", { errors := ["abortEarly=false"], valid := false })] }) ∧
    validateObjectSchema wRegistry wConfig [("f", wRules)] [] { bails := some true } =
      Except.ok
        { valid := false
          results := [("f", { errors := ["alpha failed"], valid := false })] } ∧
    validateObjectSchema wRegistry wConfig [("f", wRules)] [] { bails := some false } =
      Except.ok
        { valid := false
          results := [("f", { errors := ["alpha failed", "beta failed"], valid := false })] } := by
  refine ⟨fun b => ?_, fun values => rfl, rfl, rfl⟩
  cases b <;> rfl

theorem metaStep_invariant (m : FieldMeta) (e : MetaEvent) :
    (metaStep m e).passed = ((metaStep m e).valid && (metaStep m e).validated) ∧
    (metaStep m e).failed = ((metaStep m e).invalid && (metaStep m e).validated) := by
  cases e <;> simp [metaStep, metaRecompute]

theorem metaRun_invariant_aux :
    ∀ (events : List MetaEvent) (m : FieldMeta),
      (m.passed = (m.valid && m.validated) ∧ m.failed = (m.invalid && m.validated)) →
      ((events.foldl metaStep m).passed =
          ((events.foldl metaStep m).valid && (events.foldl metaStep m).validated) ∧
        (events.foldl metaStep m).failed =
          ((events.foldl metaStep m).invalid && (events.foldl metaStep m).validated))
  | [], _, h => h
  | e :: rest, m, _ => metaRun_invariant_aux rest (metaStep m e) (metaStep_invariant m e)

/-- C9: after any sequence of flag-updating events (value change, blur,
pending toggles, completed validations, resets), the field meta
satisfies `passed = valid && validated` and `failed = invalid &&
validated` — the `watchEffect` of `useMeta` keeps the two flags
derived. -/
theorem c9_meta_invariant (events : List MetaEvent) :
    (metaRun events).passed = ((metaRun events).valid && (metaRun events).validated) ∧
    (metaRun events).failed = ((metaRun events).invalid && (metaRun events).validated) :=
  metaRun_invariant_aux events initialFieldMeta ⟨rfl, rfl⟩

/-- C10: locator resolution preserves the collection's shape — an array
input yields an array of the same length with every non-locator
parameter unchanged in place, and a keyed-map input yields a map with
exactly the same keys in the same order, with every non-locator entry
unchanged. -/
theorem c10_fill_target_values_frame (crossTable : FormData) :
    (∀ (l : List Param),
      ∃ res, fillTargetValues (Params.arr l) crossTable = ResolvedParams.arr res) ∧
    (∀ (l : List (String × Param)),
      ∃ res, fillTargetValues (Params.map l) crossTable = ResolvedParams.map res) ∧
    (∀ (l : List Param) (res : List JSValue),
      fillTargetValues (Params.arr l) crossTable = ResolvedParams.arr res →
      res.length = l.length ∧
      ∀ (i : Nat) v, l[i]? = some (Param.lit v) → res[i]? = some v) ∧
    (∀ (l : List (String × Param)) (res : List (String × JSValue)),
      fillTargetValues (Params.map l) crossTable = ResolvedParams.map res →
      res.map Prod.fst = l.map Prod.fst ∧
      ∀ k v, (k, Param.lit v) ∈ l → (k, v) ∈ res) := by
  refine ⟨fun l => ⟨_, rfl⟩, fun l => ⟨_, rfl⟩, ?_, ?_⟩
  · intro l res h
    have h' : ResolvedParams.arr (l.map (normalizeParam crossTable)) = ResolvedParams.arr res := h
    obtain rfl := ((ResolvedParams.arr.injEq _ _).mp h').symm
    constructor
    · exact l.length_map (normalizeParam crossTable)
    · intro i v hv
      rw [List.getElem?_map, hv]
      rfl
  · intro l res h
    have h' :
        ResolvedParams.map (l.map (fun kv => (kv.1, normalizeParam crossTable kv.2))) =
          ResolvedParams.map res := h
    obtain rfl := ((ResolvedParams.map.injEq _ _).mp h').symm
    constructor
    · rw [List.map_map]
      rfl
    · intro k v hkv
      exact List.mem_map_of_mem (fun kv => (kv.1, normalizeParam crossTable kv.2)) hkv

theorem c10_fill_target_values_frame_witness :
    fillTargetValues (Params.arr c10ParamsArr) c10Cross =
      ResolvedParams.arr [JSValue.vNum 3, JSValue.vNum 10] ∧
    ([JSValue.vNum 3, JSValue.vNum 10] : List JSValue).length = c10ParamsArr.length ∧
    ([("max", JSValue.vNum 5), ("target", JSValue.vNum 10)] : List (String × JSValue)).map
        Prod.fst = c10ParamsMap.map Prod.fst ∧
    ("max", JSValue.vNum 5) ∈
      ([("max", JSValue.vNum 5), ("target", JSValue.vNum 10)] : List (String × JSValue)) := by
  have h := c10_fill_target_values_frame c10Cross
  have harr := h.2.2.1 c10ParamsArr [JSValue.vNum 3, JSValue.vNum 10] rfl
  have hmap := h.2.2.2 c10ParamsMap [("max", JSValue.vNum 5), ("target", JSValue.vNum 10)] rfl
  exact ⟨rfl, harr.1, hmap.1, hmap.2 "max" (JSValue.vNum 5) (by simp [c10ParamsMap])⟩

end VeeValidate
